import Mathlib

/-!
Verification of the process and pipe core of an xv6-derived kernel
(kernel/pipe.c and kernel/proc.c), as a shallow embedding in Lean.

Machine integers: the uint counters of the pipe are modelled as Nat
reduced mod 2^32 at every increment, exactly where the C wraps.
Fallible user-memory copies (copyin / copyout) are modelled as oracle
functions giving per-byte success or failure.  The concurrent
environment visible across a sleep suspension (other processes running
while this one is blocked) is modelled as an explicit list of states
supplied at each suspension point; an empty list means the process
stays blocked.
-/

namespace XV6

/-- PIPESIZE from pipe.c. -/
def PIPESIZE : Nat := 512

/-- Modulus of the 32-bit unsigned counters nread and nwrite. -/
def U32 : Nat := 4294967296

/-- struct pipe from pipe.c: the byte ring is a function from ring index
to byte value, the counters are the uint fields nread and nwrite
(kept below 2^32), and the two open flags.  The spinlock field is not
part of the sequential state. -/
structure Pipe where
  data : Nat → Nat
  nread : Nat
  nwrite : Nat
  readopen : Bool
  writeopen : Bool

/-- Pipe state established by pipealloc: both ends open, counters zero. -/
def pipeInit : Pipe :=
  { data := fun _ => 0, nread := 0, nwrite := 0,
    readopen := true, writeopen := true }

/-- The full test of pipewrite, line 86 of pipe.c:
pi.nwrite == pi.nread + PIPESIZE in 32-bit unsigned arithmetic. -/
def isFull (pi : Pipe) : Bool :=
  pi.nwrite == (pi.nread + PIPESIZE) % U32

/-- The empty test of piperead, lines 110 and 118 of pipe.c:
pi.nread == pi.nwrite. -/
def isEmpty (pi : Pipe) : Bool :=
  pi.nread == pi.nwrite

/-- One byte enqueued, line 93 of pipe.c:
data[nwrite++ % PIPESIZE] = ch, with the uint increment wrapping. -/
def writeByte (pi : Pipe) (ch : Nat) : Pipe :=
  { pi with
    data := fun j => if j = pi.nwrite % PIPESIZE then ch else pi.data j,
    nwrite := (pi.nwrite + 1) % U32 }

/-- Result of a pipewrite call: either a returned value together with
the final pipe state, or a suspension on a full pipe for which the
environment supplied no further state (the writer stays blocked,
having written i bytes so far). -/
inductive WRes where
  | ret (r : Int) (pi : Pipe)
  | blocked (pi : Pipe) (i : Nat)

/-- The while loop of pipewrite, lines 81 to 96 of pipe.c.
src is the copyin oracle: src i is the byte fetched from user address
addr + i, or none when copyin fails there.  envs lists, for each sleep
on the full pipe, the pipe state and the killed flag of the writer as
they are when the writer resumes. -/
def pipewriteLoop (src : Nat → Option Nat) (n : Nat) :
    List (Pipe × Bool) → Bool → Pipe → Nat → WRes
  | envs, killed, pi, i =>
    if i < n then
      if pi.readopen = false ∨ killed = true then
        .ret (-1) pi
      else if isFull pi then
        match envs with
        | [] => .blocked pi i
        | e :: es => pipewriteLoop src n es e.2 e.1 i
      else
        match src i with
        | none => .ret (i : Int) pi
        | some ch => pipewriteLoop src n envs killed (writeByte pi ch) (i + 1)
    else
      .ret (i : Int) pi
  termination_by envs _ _ i => envs.length + (n - i)
  decreasing_by
    all_goals simp_wf <;> omega

/-- pipewrite of pipe.c, lines 75 to 101: run the loop from i = 0. -/
def pipewrite (src : Nat → Option Nat) (n : Nat)
    (envs : List (Pipe × Bool)) (killed : Bool) (pi : Pipe) : WRes :=
  pipewriteLoop src n envs killed pi 0

/-- Result of a piperead call: returned value, final pipe state and the
list of bytes actually delivered to user memory; or a suspension on an
empty pipe with no further environment state. -/
inductive RRes where
  | ret (r : Int) (pi : Pipe) (delivered : List Nat)
  | blocked (pi : Pipe)

/-- The copy loop of piperead, lines 117 to 123 of pipe.c.
dst is the copyout oracle: dst j is true when the copyout of byte j
succeeds.  fuel counts the remaining iterations (n - j); the byte is
taken out of the ring, nread incremented, before the copyout attempt,
and on copyout failure the loop stops returning the count j of bytes
already delivered. -/
def readCopy (dst : Nat → Bool) :
    Nat → Nat → Pipe → List Nat → Nat × Pipe × List Nat
  | 0, j, pi, acc => (j, pi, acc)
  | fuel + 1, j, pi, acc =>
    if isEmpty pi then (j, pi, acc)
    else
      let ch := pi.data (pi.nread % PIPESIZE)
      let pi2 := { pi with nread := (pi.nread + 1) % U32 }
      if dst j then readCopy dst fuel (j + 1) pi2 (acc ++ [ch])
      else (j, pi2, acc)

/-- piperead of pipe.c, lines 103 to 127: the while loop sleeping on an
empty pipe whose write end is open (returning -1 when the reader is
killed there), then the copy loop.  envs supplies, for each sleep, the
pipe state and killed flag at resumption. -/
def piperead (dst : Nat → Bool) (n : Nat)
    (envs : List (Pipe × Bool)) (killed : Bool) (pi : Pipe) : RRes :=
  if isEmpty pi = true ∧ pi.writeopen = true then
    if killed then .ret (-1) pi []
    else
      match envs with
      | [] => .blocked pi
      | e :: es => piperead dst n es e.2 e.1
  else
    let t := readCopy dst n 0 pi []
    .ret (t.1 : Int) t.2.1 t.2.2

/-- pipeclose of pipe.c, lines 58 to 73: clear the corresponding open
flag (the wakeups and the final kfree do not change the ring state). -/
def pipeclose (pi : Pipe) (writable : Bool) : Pipe :=
  if writable then { pi with writeopen := false }
  else { pi with readopen := false }

/-- The modular distance nwrite - nread of the 32-bit counters: the
number of bytes in the ring. -/
def diff (pi : Pipe) : Nat :=
  (pi.nwrite + U32 - pi.nread) % U32

/-- Counter invariant of the pipe: both counters reduced, and at most
PIPESIZE bytes in the ring. -/
def pipeInv (pi : Pipe) : Prop :=
  pi.nread < U32 ∧ pi.nwrite < U32 ∧ diff pi ≤ PIPESIZE

/-- Final pipe state of a pipewrite call (also at a block point). -/
def WRes.pipe : WRes → Pipe
  | .ret _ pi => pi
  | .blocked pi _ => pi

/-- Returned value of a pipewrite call, none when still blocked. -/
def WRes.retVal : WRes → Option Int
  | .ret r _ => some r
  | .blocked _ _ => none

/-- Final pipe state of a piperead call (also at a block point). -/
def RRes.pipe : RRes → Pipe
  | .ret _ pi _ => pi
  | .blocked pi => pi

/-- Returned value of a piperead call, none when still blocked. -/
def RRes.retVal : RRes → Option Int
  | .ret r _ _ => some r
  | .blocked _ => none

/-- One operation applied to a pipe by a sequential user: a write, a
read, or the close of one end.  A blocked operation contributes the
state at its suspension point. -/
inductive PipeOp where
  | wr (killed : Bool) (src : Nat → Option Nat) (n : Nat)
  | rd (killed : Bool) (dst : Nat → Bool) (n : Nat)
  | close (writable : Bool)

/-- Apply one operation to the pipe and keep the resulting pipe state. -/
def runOp (pi : Pipe) : PipeOp → Pipe
  | .wr killed src n => (pipewrite src n [] killed pi).pipe
  | .rd killed dst n => (piperead dst n [] killed pi).pipe
  | .close w => pipeclose pi w

/-- Apply a sequence of operations starting from a given pipe state. -/
def runOps : Pipe → List PipeOp → Pipe
  | pi, [] => pi
  | pi, op :: ops => runOps (runOp pi op) ops

theorem writeByte_inv {pi : Pipe} (h : pipeInv pi) (hf : isFull pi = false)
    (ch : Nat) : pipeInv (writeByte pi ch) := by
  simp only [pipeInv, diff, isFull, writeByte, U32, PIPESIZE,
    beq_eq_false_iff_ne, ne_eq] at *
  omega

theorem readByte_inv {pi : Pipe} (h : pipeInv pi) (he : isEmpty pi = false) :
    pipeInv { pi with nread := (pi.nread + 1) % U32 } := by
  simp only [pipeInv, diff, isEmpty, U32, PIPESIZE,
    beq_eq_false_iff_ne, ne_eq] at *
  omega

theorem pipewriteLoop_inv (src : Nat → Option Nat) (n : Nat)
    (envs : List (Pipe × Bool)) (killed : Bool) (pi : Pipe) (i : Nat)
    (h : pipeInv pi) (henv : ∀ e ∈ envs, pipeInv e.1) :
    pipeInv (pipewriteLoop src n envs killed pi i).pipe := by
  induction envs, killed, pi, i using pipewriteLoop.induct src n with
  | case1 envs killed pi i hi hc =>
    rw [pipewriteLoop.eq_def]; simp [hi, hc, WRes.pipe, h]
  | case2 killed pi i hi hc hfull =>
    rw [pipewriteLoop.eq_def]; simp [hi, hc, hfull, WRes.pipe, h]
  | case3 killed pi i hi hc hfull e es ih =>
    rw [pipewriteLoop.eq_def]; simp only [hi, if_pos, hc, if_neg, hfull, if_true]
    exact ih (henv e (by simp)) (fun e' he' => henv e' (by simp [he']))
  | case4 envs killed pi i hi hc hfull hsrc =>
    rw [pipewriteLoop.eq_def]; simp [hi, hc, hfull, hsrc, WRes.pipe, h]
  | case5 envs killed pi i hi hc hfull ch hsrc ih =>
    rw [pipewriteLoop.eq_def]; simp only [hi, if_pos, hc, if_neg, hfull, hsrc]
    exact ih (writeByte_inv h (by simpa using hfull) ch) henv
  | case6 envs killed pi i hi =>
    rw [pipewriteLoop.eq_def]; simp [hi, WRes.pipe, h]

theorem readCopy_inv (dst : Nat → Bool) :
    ∀ (fuel j : Nat) (pi : Pipe) (acc : List Nat), pipeInv pi →
      pipeInv (readCopy dst fuel j pi acc).2.1 := by
  intro fuel
  induction fuel with
  | zero => intro j pi acc h; simpa [readCopy] using h
  | succ f ih =>
    intro j pi acc h
    rw [readCopy]
    by_cases he : isEmpty pi
    · simpa [he] using h
    · simp only [he, if_neg, Bool.false_eq_true, not_false_eq_true, if_false]
      by_cases hd : dst j
      · simpa [hd] using ih (j + 1) _ _ (readByte_inv h (by simpa using he))
      · simpa [hd] using readByte_inv h (by simpa using he)

theorem piperead_inv (dst : Nat → Bool) (n : Nat) :
    ∀ (envs : List (Pipe × Bool)) (killed : Bool) (pi : Pipe),
      pipeInv pi → (∀ e ∈ envs, pipeInv e.1) →
      pipeInv (piperead dst n envs killed pi).pipe := by
  intro envs
  induction envs with
  | nil =>
    intro killed pi h _
    rw [piperead]
    by_cases hg : isEmpty pi = true ∧ pi.writeopen = true
    · simp only [hg, if_pos]
      by_cases hk : killed <;> simp [hk, RRes.pipe, h]
    · simp only [hg, if_neg, not_false_eq_true, RRes.pipe]
      exact readCopy_inv dst n 0 pi [] h
  | cons e es ih =>
    intro killed pi h henv
    rw [piperead]
    by_cases hg : isEmpty pi = true ∧ pi.writeopen = true
    · simp only [hg, if_pos]
      by_cases hk : killed
      · simp [hk, RRes.pipe, h]
      · simp only [hk, if_neg, Bool.false_eq_true, not_false_eq_true, if_false]
        exact ih e.2 e.1 (henv e (by simp)) (fun e' he' => henv e' (by simp [he']))
    · simp only [hg, if_neg, not_false_eq_true, RRes.pipe]
      exact readCopy_inv dst n 0 pi [] h

theorem pipeclose_inv {pi : Pipe} (h : pipeInv pi) (w : Bool) :
    pipeInv (pipeclose pi w) := by
  by_cases hw : w <;> simp [pipeclose, hw] <;>
    simpa [pipeInv, diff] using h

theorem runOp_inv {pi : Pipe} (h : pipeInv pi) (op : PipeOp) :
    pipeInv (runOp pi op) := by
  cases op with
  | wr killed src n => exact pipewriteLoop_inv src n [] killed pi 0 h (by simp)
  | rd killed dst n => exact piperead_inv dst n [] killed pi h (by simp)
  | close w => exact pipeclose_inv h w

theorem runOps_inv : ∀ (ops : List PipeOp) (pi : Pipe), pipeInv pi →
    pipeInv (runOps pi ops) := by
  intro ops
  induction ops with
  | nil => intro pi h; simpa [runOps] using h
  | cons op ops ih => intro pi h; rw [runOps]; exact ih _ (runOp_inv h op)

theorem pipeInit_inv : pipeInv pipeInit := by
  simp [pipeInv, pipeInit, diff, U32, PIPESIZE]

theorem isFull_iff_diff {pi : Pipe} (h : pipeInv pi) :
    isFull pi = true ↔ diff pi = PIPESIZE := by
  obtain ⟨h1, h2, h3⟩ := h
  simp only [isFull, diff, U32, PIPESIZE, beq_iff_eq] at *
  omega

theorem isEmpty_iff_diff {pi : Pipe} (h : pipeInv pi) :
    isEmpty pi = true ↔ diff pi = 0 := by
  obtain ⟨h1, h2, h3⟩ := h
  simp only [isEmpty, diff, U32, PIPESIZE, beq_iff_eq] at *
  omega

/-- A point of the pipewrite loop: remaining environment states, the
killed flag of the writer, the pipe state, and the count i of bytes
written so far. -/
structure WCfg where
  envs : List (Pipe × Bool)
  killed : Bool
  pi : Pipe
  i : Nat

/-- One non-returning iteration of the pipewrite loop: either a sleep
on the full pipe that consumes one environment state, or the enqueue
of one byte obtained from copyin. -/
inductive WStep (src : Nat → Option Nat) (n : Nat) : WCfg → WCfg → Prop
  | sleep (e : Pipe × Bool) (es : List (Pipe × Bool)) (k : Bool) (pi : Pipe)
      (i : Nat) : i < n → ¬(pi.readopen = false ∨ k = true) →
      isFull pi = true →
      WStep src n ⟨e :: es, k, pi, i⟩ ⟨es, e.2, e.1, i⟩
  | store (es : List (Pipe × Bool)) (k : Bool) (pi : Pipe) (i ch : Nat) :
      i < n → ¬(pi.readopen = false ∨ k = true) → isFull pi = false →
      src i = some ch →
      WStep src n ⟨es, k, pi, i⟩ ⟨es, k, writeByte pi ch, i + 1⟩

/-- Loop points reachable from a starting point of the pipewrite loop. -/
def WReach (src : Nat → Option Nat) (n : Nat) : WCfg → WCfg → Prop :=
  Relation.ReflTransGen (WStep src n)

theorem wstep_loop_eq {src : Nat → Option Nat} {n : Nat} {a b : WCfg}
    (h : WStep src n a b) :
    pipewriteLoop src n a.envs a.killed a.pi a.i =
      pipewriteLoop src n b.envs b.killed b.pi b.i := by
  cases h with
  | sleep e es k pi i hi hc hfull =>
    conv_lhs => rw [pipewriteLoop.eq_def]
    simp [hi, hc, hfull]
  | store es k pi i ch hi hc hfull hsrc =>
    conv_lhs => rw [pipewriteLoop.eq_def]
    simp [hi, hc, hfull, hsrc]

theorem wreach_loop_eq {src : Nat → Option Nat} {n : Nat} {a b : WCfg}
    (h : WReach src n a b) :
    pipewriteLoop src n a.envs a.killed a.pi a.i =
      pipewriteLoop src n b.envs b.killed b.pi b.i := by
  induction h with
  | refl => rfl
  | tail hab hstep ih => exact ih.trans (wstep_loop_eq hstep)

theorem wloop_cond_ret {src : Nat → Option Nat} {n : Nat}
    {envs : List (Pipe × Bool)} {k : Bool} {pi : Pipe} {i : Nat}
    (hi : i < n) (hc : pi.readopen = false ∨ k = true) :
    pipewriteLoop src n envs k pi i = .ret (-1) pi := by
  rw [pipewriteLoop.eq_def]; simp [hi, hc]

theorem wloop_copyfail_ret {src : Nat → Option Nat} {n : Nat}
    {envs : List (Pipe × Bool)} {k : Bool} {pi : Pipe} {i : Nat}
    (hi : i < n) (hc : ¬(pi.readopen = false ∨ k = true))
    (hfull : isFull pi = false) (hsrc : src i = none) :
    pipewriteLoop src n envs k pi i = .ret (i : Int) pi := by
  rw [pipewriteLoop.eq_def]; simp [hi, hc, hfull, hsrc]

theorem wloop_err_reach {src : Nat → Option Nat} {n : Nat}
    (envs : List (Pipe × Bool)) (k : Bool) (pi : Pipe) (i : Nat)
    (hin : i ≤ n) :
    ∀ r pi2, pipewriteLoop src n envs k pi i = .ret r pi2 →
      (r = -1 ∧ ∃ c : WCfg, WReach src n ⟨envs, k, pi, i⟩ c ∧ c.i < n ∧
        (c.pi.readopen = false ∨ c.killed = true) ∧ c.pi = pi2)
      ∨ (0 ≤ r ∧ r ≤ (n : Int)) := by
  induction envs, k, pi, i using pipewriteLoop.induct src n with
  | case1 envs killed pi i hi hc =>
    intro r pi2 h
    rw [wloop_cond_ret hi hc] at h
    cases h
    exact Or.inl ⟨rfl, ⟨envs, killed, pi, i⟩, Relation.ReflTransGen.refl,
      hi, hc, rfl⟩
  | case2 killed pi i hi hc hfull =>
    intro r pi2 h
    rw [pipewriteLoop.eq_def] at h
    simp [hi, hc, hfull] at h
  | case3 killed pi i hi hc hfull e es ih =>
    intro r pi2 h
    rw [pipewriteLoop.eq_def] at h
    simp only [hi, if_pos, hc, if_neg, hfull, if_true] at h
    rcases ih hin r pi2 h with ⟨hr, c, hc2, hrest⟩ | hok
    · exact Or.inl ⟨hr, c,
        Relation.ReflTransGen.head (WStep.sleep e es killed pi i hi hc hfull)
          hc2, hrest⟩
    · exact Or.inr hok
  | case4 envs killed pi i hi hc hfull hsrc =>
    intro r pi2 h
    rw [wloop_copyfail_ret hi hc (by simpa using hfull) hsrc] at h
    cases h
    exact Or.inr ⟨Int.ofNat_nonneg i, by exact_mod_cast Nat.le_of_lt hi⟩
  | case5 envs killed pi i hi hc hfull ch hsrc ih =>
    intro r pi2 h
    rw [pipewriteLoop.eq_def] at h
    simp only [hi, if_pos, hc, if_neg, hfull, hsrc] at h
    rcases ih hi r pi2 h with ⟨hr, c, hc2, hrest⟩ | hok
    · exact Or.inl ⟨hr, c,
        Relation.ReflTransGen.head
          (WStep.store envs killed pi i ch hi hc (by simpa using hfull) hsrc)
          hc2, hrest⟩
    · exact Or.inr hok
  | case6 envs killed pi i hi =>
    intro r pi2 h
    rw [pipewriteLoop.eq_def] at h
    simp only [hi, if_neg] at h
    cases h
    exact Or.inr ⟨Int.ofNat_nonneg i, by exact_mod_cast (show i ≤ n by omega)⟩

/-- A point of the sleep loop of piperead: remaining environment
states, the killed flag of the reader, and the pipe state. -/
structure RCfg where
  envs : List (Pipe × Bool)
  killed : Bool
  pi : Pipe

/-- One sleep of the piperead loop on an empty pipe with the write end
open, consuming one environment state. -/
inductive RStep : RCfg → RCfg → Prop
  | sleep (e : Pipe × Bool) (es : List (Pipe × Bool)) (k : Bool) (pi : Pipe) :
      isEmpty pi = true → pi.writeopen = true → k = false →
      RStep ⟨e :: es, k, pi⟩ ⟨es, e.2, e.1⟩

/-- Loop points reachable from a starting point of the piperead loop. -/
def RReach : RCfg → RCfg → Prop :=
  Relation.ReflTransGen RStep

theorem rstep_read_eq {dst : Nat → Bool} {n : Nat} {a b : RCfg}
    (h : RStep a b) :
    piperead dst n a.envs a.killed a.pi = piperead dst n b.envs b.killed b.pi := by
  cases h with
  | sleep e es k pi he hw hk =>
    subst hk
    conv_lhs => rw [piperead.eq_def]
    simp [he, hw]

theorem rreach_read_eq {dst : Nat → Bool} {n : Nat} {a b : RCfg}
    (h : RReach a b) :
    piperead dst n a.envs a.killed a.pi = piperead dst n b.envs b.killed b.pi := by
  induction h with
  | refl => rfl
  | tail hab hstep ih => exact ih.trans (rstep_read_eq hstep)

theorem readCopy_empty {dst : Nat → Bool} {pi : Pipe} (he : isEmpty pi = true) :
    ∀ (fuel j : Nat) (acc : List Nat), readCopy dst fuel j pi acc = (j, pi, acc) := by
  intro fuel j acc
  cases fuel with
  | zero => rfl
  | succ f => rw [readCopy]; simp [he]

theorem readCopy_len (dst : Nat → Bool) :
    ∀ (fuel j : Nat) (pi : Pipe) (acc : List Nat),
      j ≤ (readCopy dst fuel j pi acc).1 ∧
      (readCopy dst fuel j pi acc).1 ≤ j + fuel ∧
      (readCopy dst fuel j pi acc).2.2.length + j =
        acc.length + (readCopy dst fuel j pi acc).1 := by
  intro fuel
  induction fuel with
  | zero => intro j pi acc; simp [readCopy]
  | succ f ih =>
    intro j pi acc
    rw [readCopy]
    by_cases he : isEmpty pi
    · simp [he]
    · simp only [he, Bool.false_eq_true, if_false]
      by_cases hd : dst j
      · simp only [hd, if_true]
        have h2 := ih (j + 1) { pi with nread := (pi.nread + 1) % U32 }
          ((acc ++ [pi.data (pi.nread % PIPESIZE)]))
        simp only [List.length_append, List.length_singleton] at h2 ⊢
        omega
      · simp [hd]

/-- C2: for every sequence of pipe operations (pipe_write, pipe_read,
pipe_close) applied to a pipe freshly allocated with nread = nwrite = 0,
the invariant 0 <= nwrite - nread <= 512 (modular distance of the
32-bit counters) holds between operations; the pipe is full, in the
sense of the test of pipewrite, exactly when nwrite - nread = 512, and
empty, in the sense of the test of piperead, exactly when
nwrite = nread. -/
theorem pipe_counter_invariant (ops : List PipeOp) :
    pipeInv (runOps pipeInit ops) ∧
    (isFull (runOps pipeInit ops) = true ↔ diff (runOps pipeInit ops) = PIPESIZE) ∧
    (isEmpty (runOps pipeInit ops) = true ↔ diff (runOps pipeInit ops) = 0) :=
  have h := runOps_inv ops pipeInit pipeInit_inv
  ⟨h, isFull_iff_diff h, isEmpty_iff_diff h⟩

/-- C3: pipewrite returns -1 exactly when, at the start of some loop
iteration reached before n bytes have been written, the read end is
closed or the writer is killed (the pipe state returned is the one
observed there); in every other returning case the result r counts the
bytes written, with 0 <= r <= n; and at a reached iteration where
copyin fails, the loop ends returning the partial count rather
than -1. -/
theorem pipewrite_error_cases (src : Nat → Option Nat) (n : Nat)
    (envs : List (Pipe × Bool)) (k : Bool) (pi : Pipe) :
    (∀ r pi2, pipewrite src n envs k pi = .ret r pi2 →
      (r = -1 ∧ ∃ c : WCfg, WReach src n ⟨envs, k, pi, 0⟩ c ∧ c.i < n ∧
        (c.pi.readopen = false ∨ c.killed = true) ∧ c.pi = pi2)
      ∨ (0 ≤ r ∧ r ≤ (n : Int))) ∧
    (∀ c : WCfg, WReach src n ⟨envs, k, pi, 0⟩ c → c.i < n →
      (c.pi.readopen = false ∨ c.killed = true) →
      pipewrite src n envs k pi = .ret (-1) c.pi) ∧
    (∀ c : WCfg, WReach src n ⟨envs, k, pi, 0⟩ c → c.i < n →
      ¬(c.pi.readopen = false ∨ c.killed = true) → isFull c.pi = false →
      src c.i = none →
      pipewrite src n envs k pi = .ret (c.i : Int) c.pi) := by
  refine ⟨wloop_err_reach envs k pi 0 (Nat.zero_le n), ?_, ?_⟩
  · rintro ⟨ce, ck, cpi, ci⟩ hreach hi hcnd
    rw [pipewrite, wreach_loop_eq hreach]
    exact wloop_cond_ret hi hcnd
  · rintro ⟨ce, ck, cpi, ci⟩ hreach hi hcnd hfull hsrc
    rw [pipewrite, wreach_loop_eq hreach]
    exact wloop_copyfail_ret hi hcnd hfull hsrc

/-- Witness for C3: a writer that sleeps on a concrete full pipe and is
killed while asleep returns -1, through the characterization above. -/
theorem pipewrite_error_cases_witness :
    pipewrite (fun _ => some 7) 1 [(pipeInit, true)] false
      { pipeInit with nwrite := 512 } = .ret (-1) pipeInit :=
  (pipewrite_error_cases (fun _ => some 7) 1 [(pipeInit, true)] false
      { pipeInit with nwrite := 512 }).2.1 ⟨[], true, pipeInit, 0⟩
    (Relation.ReflTransGen.single
      (WStep.sleep (pipeInit, true) [] false { pipeInit with nwrite := 512 } 0
        (by decide) (by simp [pipeInit]) (by decide)))
    (by decide) (Or.inr rfl)

/-- C4: a returning piperead yields -1 only when, at a reached
iteration of its sleep loop, the pipe is empty, the write end is open
and the reader is killed; reading an empty pipe whose write end is
closed returns 0 with nothing delivered (EOF); in every other
returning case the result equals the number of bytes actually
delivered to user memory, at most n (a copyout failure having stopped
the copy at the bytes already delivered). -/
theorem piperead_ret_cases (dst : Nat → Bool) (n : Nat)
    (envs : List (Pipe × Bool)) (k : Bool) (pi : Pipe) :
    (∀ r pi2 out, piperead dst n envs k pi = .ret r pi2 out →
      (r = -1 ∧ out = [] ∧ ∃ c : RCfg, RReach ⟨envs, k, pi⟩ c ∧
        isEmpty c.pi = true ∧ c.pi.writeopen = true ∧ c.killed = true ∧
        c.pi = pi2)
      ∨ (r = (out.length : Int) ∧ out.length ≤ n)) ∧
    (isEmpty pi = true → pi.writeopen = false →
      piperead dst n envs k pi = .ret 0 pi []) := by
  constructor
  · induction envs generalizing k pi with
    | nil =>
      intro r pi2 out h
      rw [piperead.eq_def] at h
      by_cases hg : isEmpty pi = true ∧ pi.writeopen = true
      · rw [if_pos hg] at h
        by_cases hk : k
        · rw [if_pos hk] at h
          simp only [RRes.ret.injEq] at h
          exact Or.inl ⟨h.1.symm, h.2.2.symm, ⟨[], k, pi⟩,
            Relation.ReflTransGen.refl, hg.1, hg.2, hk, h.2.1⟩
        · rw [if_neg hk] at h
          exact RRes.noConfusion h
      · rw [if_neg hg] at h
        simp only [RRes.ret.injEq] at h
        obtain ⟨h1, h2, h3⟩ := h
        obtain ⟨ha, hb, hc⟩ := readCopy_len dst n 0 pi []
        refine Or.inr ⟨?_, ?_⟩
        · rw [← h1, ← h3]
          exact_mod_cast (show (readCopy dst n 0 pi []).1 =
            (readCopy dst n 0 pi []).2.2.length by simp at hc; omega)
        · rw [← h3]; simp at hc; omega
    | cons e es ih =>
      intro r pi2 out h
      rw [piperead.eq_def] at h
      by_cases hg : isEmpty pi = true ∧ pi.writeopen = true
      · rw [if_pos hg] at h
        by_cases hk : k
        · rw [if_pos hk] at h
          simp only [RRes.ret.injEq] at h
          exact Or.inl ⟨h.1.symm, h.2.2.symm, ⟨e :: es, k, pi⟩,
            Relation.ReflTransGen.refl, hg.1, hg.2, hk, h.2.1⟩
        · rw [if_neg hk] at h
          rcases ih e.2 e.1 r pi2 out h with ⟨h1, h2, c, hc2, hrest⟩ | hok
          · refine Or.inl ⟨h1, h2, c, ?_, hrest⟩
            exact Relation.ReflTransGen.head
              (RStep.sleep e es k pi hg.1 hg.2 (by simpa using hk)) hc2
          · exact Or.inr hok
      · rw [if_neg hg] at h
        simp only [RRes.ret.injEq] at h
        obtain ⟨h1, h2, h3⟩ := h
        obtain ⟨ha, hb, hc⟩ := readCopy_len dst n 0 pi []
        refine Or.inr ⟨?_, ?_⟩
        · rw [← h1, ← h3]
          exact_mod_cast (show (readCopy dst n 0 pi []).1 =
            (readCopy dst n 0 pi []).2.2.length by simp at hc; omega)
        · rw [← h3]; simp at hc; omega
  · intro he hw
    rw [piperead.eq_def]
    have hg : ¬(isEmpty pi = true ∧ pi.writeopen = true) := by simp [hw]
    rw [if_neg hg, readCopy_empty he]
    rfl

/-- Witness for C4: reading a concrete empty pipe whose write end is
closed returns 0 (EOF), through the characterization above. -/
theorem piperead_ret_cases_witness :
    piperead (fun _ => true) 5 [] false { pipeInit with writeopen := false } =
      .ret 0 { pipeInit with writeopen := false } [] :=
  (piperead_ret_cases (fun _ => true) 5 [] false
    { pipeInit with writeopen := false }).2 (by decide) rfl

theorem readCopy_fail_consumes (dst : Nat → Bool) (m : Nat) :
    ∀ (fuel j : Nat) (pi : Pipe) (acc : List Nat),
      (∀ t, t < m → dst (j + t) = true) → dst (j + m) = false →
      m < fuel → pi.nread < U32 → pi.nwrite < U32 → m < diff pi →
      readCopy dst fuel j pi acc =
        (j + m, { pi with nread := (pi.nread + m + 1) % U32 },
         acc ++ (List.range m).map
           (fun t => pi.data ((pi.nread + t) % U32 % PIPESIZE))) := by
  induction m with
  | zero =>
    intro fuel j pi acc h1 h2 hf hr hw hd
    cases fuel with
    | zero => exact absurd hf (by omega)
    | succ f =>
      have he : isEmpty pi = false := by
        simp only [isEmpty, beq_eq_false_iff_ne, ne_eq]
        intro hEq
        simp only [diff, U32] at hd
        omega
      rw [readCopy, if_neg (by simp [he]),
        if_neg (by simp [show dst j = false by simpa using h2])]
      simp

  | succ m ih =>
    intro fuel j pi acc h1 h2 hf hr hw hd
    cases fuel with
    | zero => exact absurd hf (by omega)
    | succ f =>
      have he : isEmpty pi = false := by
        simp only [isEmpty, beq_eq_false_iff_ne, ne_eq]
        intro hEq
        simp only [diff, U32] at hd
        omega
      have hdj : dst j = true := by simpa using h1 0 (by omega)
      rw [readCopy, if_neg (by simp [he]), if_pos hdj]
      rw [ih f (j + 1) { pi with nread := (pi.nread + 1) % U32 }
        (acc ++ [pi.data (pi.nread % PIPESIZE)])
        (by intro t ht
            rw [show j + 1 + t = j + (t + 1) by omega]
            exact h1 (t + 1) (by omega))
        (by rw [show j + 1 + m = j + (m + 1) by omega]; exact h2)
        (by omega)
        (by simp only [U32]; omega)
        hw
        (by simp only [diff, U32] at hd ⊢; omega)]
      simp only [Prod.mk.injEq]
      refine ⟨by omega, ?_, ?_⟩
      · congr 1
        simp only [U32]
        omega
      · rw [List.append_assoc]
        congr 1
        rw [List.range_succ_eq_map, List.map_cons, List.map_map,
          List.singleton_append]
        congr 1
        · congr 1
          simp only [U32, PIPESIZE]
          omega
        · refine List.map_congr_left ?_
          intro t ht
          simp only [Function.comp_apply]
          congr 1
          simp only [U32, PIPESIZE]
          omega

/-- C10: when copyout fails during the copy loop of piperead at byte
offset m (the first m copyouts succeeding), the byte whose copy failed
has already been removed from the ring: the final nread has advanced
past it by m + 1 while only the first m ring bytes were delivered, and
the returned value is m, the count of bytes delivered before the
failure. -/
theorem piperead_copyout_fail (dst : Nat → Bool) (n m : Nat)
    (envs : List (Pipe × Bool)) (k : Bool) (pi : Pipe)
    (h1 : ∀ t, t < m → dst t = true) (h2 : dst m = false) (h3 : m < n)
    (h4 : pi.nread < U32) (h5 : pi.nwrite < U32) (h6 : m < diff pi) :
    piperead dst n envs k pi =
      .ret (m : Int) { pi with nread := (pi.nread + m + 1) % U32 }
        ((List.range m).map fun t => pi.data ((pi.nread + t) % U32 % PIPESIZE)) := by
  have he : isEmpty pi = false := by
    simp only [isEmpty, beq_eq_false_iff_ne, ne_eq]
    intro hEq
    simp only [diff, U32] at h6
    omega
  have hg : ¬(isEmpty pi = true ∧ pi.writeopen = true) := by simp [he]
  rw [piperead.eq_def, if_neg hg]
  have hrc := readCopy_fail_consumes dst m n 0 pi []
    (by intro t ht; rw [Nat.zero_add]; exact h1 t ht)
    (by rw [Nat.zero_add]; exact h2) h3 h4 h5 h6
  simp only [hrc, Nat.zero_add, List.nil_append]

/-- Witness for C10: a copyout failure at offset 1 of a concrete
three-byte pipe returns 1, delivers one byte, and advances nread by 2,
past the byte whose copyout failed. -/
theorem piperead_copyout_fail_witness :
    piperead (fun j => j == 0) 3 [] false
      { data := fun j => j, nread := 0, nwrite := 3,
        readopen := true, writeopen := true } =
      .ret ((1 : Nat) : Int)
        { data := fun j => j, nread := (0 + 1 + 1) % U32, nwrite := 3,
          readopen := true, writeopen := true }
        ((List.range 1).map fun t =>
          (fun j => j) ((0 + t) % U32 % PIPESIZE)) :=
  piperead_copyout_fail (fun j => j == 0) 3 1 [] false
    { data := fun j => j, nread := 0, nwrite := 3,
      readopen := true, writeopen := true }
    (by decide) (by decide) (by decide) (by decide) (by decide) (by decide)

/-!
The process subsystem of proc.c.
-/

/-- The six process states of proc.h. -/
inductive PState where
  | UNUSED
  | USED
  | SLEEPING
  | RUNNABLE
  | RUNNING
  | ZOMBIE
deriving DecidableEq, Repr

/-- One entry of the process table, with the fields that freeproc,
kill and wait touch.  parent is the slot index of the parent process
(the C parent pointer), none when null; trapframe and pagetable are
opaque handles to the allocated resources, none when null; the lock,
context, ofile, cwd and kstack fields play no part in the claims
settled here. -/
structure Slot where
  state : PState
  chan : Nat
  killed : Bool
  xstate : Int
  pid : Nat
  parent : Option Nat
  sz : Nat
  trapframe : Option Nat
  pagetable : Option Nat
  name : String
deriving DecidableEq, Repr

/-- The all-zero slot, also the slot contents after freeproc. -/
def dfltSlot : Slot :=
  { state := .UNUSED, chan := 0, killed := false, xstate := 0, pid := 0,
    parent := none, sz := 0, trapframe := none, pagetable := none,
    name := "" }

/-- Resources given back by freeproc: the trapframe page, and the page
table together with the user-memory size up to which uvmfree runs. -/
structure Freed where
  tf : Option Nat
  pt : Option (Nat × Nat)
deriving DecidableEq, Repr

/-- freeproc of proc.c, lines 150 to 167: free the trapframe page if
present, free the page table (proc_freepagetable with the current sz)
if present, zero sz, pid, parent, name, chan, killed, xstate, and set
state UNUSED.  The slot lock is a concurrency precondition with no
effect on the sequential state. -/
def freeproc (p : Slot) : Slot × Freed :=
  ({ p with trapframe := none, pagetable := none, sz := 0, pid := 0,
            parent := none, name := "", chan := 0, killed := false,
            xstate := 0, state := .UNUSED },
   { tf := p.trapframe, pt := p.pagetable.map (fun pt => (pt, p.sz)) })

/-- kill of proc.c, lines 544 to 560: scan the table in slot order for
the first slot whose pid matches; set its killed flag, and move it
from SLEEPING to RUNNABLE; 0 when found, -1
when no slot matches. -/
def kill : List Slot → Nat → Int × List Slot
  | [], _ => (-1, [])
  | p :: rest, pid =>
    if p.pid = pid then
      let p2 : Slot :=
        { p with killed := true,
                 state := if p.state = .SLEEPING then .RUNNABLE else p.state }
      (0, p2 :: rest)
    else
      let t := kill rest pid
      (t.1, p :: t.2)

/-- allocpid of proc.c, lines 88 to 98: under pid_lock, return the
counter and increment it.  The C counter is a signed int whose
overflow is undefined behaviour; it is modelled as an unbounded Nat. -/
def allocpid (nextpid : Nat) : Nat × Nat :=
  (nextpid, nextpid + 1)

/-- Initial value of nextpid, proc.c line 15. -/
def nextpidStart : Nat := 1

/-- The pid counter after k calls of allocpid. -/
def pidCounter : Nat → Nat
  | 0 => nextpidStart
  | k + 1 => (allocpid (pidCounter k)).2

/-- The pid returned by call number k of allocpid (0-based). -/
def nthPid (k : Nat) : Nat :=
  (allocpid (pidCounter k)).1

/-- The state sched reads through its four panic checks, proc.c lines
451 to 458: whether the caller holds its own slot lock, the interrupt
nesting count noff of the CPU, the caller state, and the interrupt
flag. -/
structure SchedCtx where
  holdingSelf : Bool
  noff : Nat
  state : PState
  intrOn : Bool
deriving DecidableEq, Repr

/-- sched of proc.c, lines 447 to 463, as its panic checks: panic
"sched p->lock" unless the slot lock is held, "sched locks" unless
noff = 1, "sched running" if the state is still RUNNING, "sched
interruptible" if interrupts are enabled; otherwise the context switch
proceeds. -/
def sched (c : SchedCtx) : Except String Unit :=
  if ¬ c.holdingSelf then .error "sched p->lock"
  else if c.noff ≠ 1 then .error "sched locks"
  else if c.state = .RUNNING then .error "sched running"
  else if c.intrOn then .error "sched interruptible"
  else .ok ()

/-- State of the caller of sleep and of its CPU: whether it holds its
own slot lock, whether it holds the lock lk passed to sleep, whether
lk is in fact the slot lock itself, the nesting count noff, the
interrupt flag, the saved intena, the process state and the wait
channel. -/
structure SleepSt where
  holdingSelf : Bool
  lkHeld : Bool
  lkIsSelf : Bool
  noff : Nat
  intrOn : Bool
  intena : Bool
  state : PState
  chan : Nat
deriving DecidableEq, Repr

/-- Modelled from the spec: push_off of the spinlock primitive
(spinlock.c is not among the sources); per section 5, it disables
interrupts, saves the previous interrupt flag into intena when the
nesting count was zero, and increments noff. -/
def pushOff (s : SleepSt) : SleepSt :=
  { s with intena := if s.noff = 0 then s.intrOn else s.intena,
           intrOn := false,
           noff := s.noff + 1 }

/-- Modelled from the spec: pop_off of the spinlock primitive:
decrement noff and re-enable interrupts when the count returns to
zero and they were enabled at the outermost push_off; popping with
interrupts enabled or with noff already zero is a fatal error. -/
def popOff (s : SleepSt) : Except String SleepSt :=
  if s.intrOn then .error "pop_off - interruptible"
  else if s.noff = 0 then .error "pop_off"
  else .ok { s with noff := s.noff - 1,
                    intrOn := decide (s.noff - 1 = 0) && s.intena }

/-- Modelled from the spec: acquire of the slot lock of the calling
process.  Mutual exclusion (section 2) means an acquire of a lock the
caller already holds can never complete; the standard spinlock makes
this a fatal error (section 7 treats lock-nesting violations as
panics), modelled as the error "acquire".  Otherwise push_off and take
the lock. -/
def acquireSelf (s : SleepSt) : Except String SleepSt :=
  if s.holdingSelf then .error "acquire"
  else .ok { pushOff s with holdingSelf := true }

/-- Modelled from the spec: release of the lock lk passed to sleep.
When lk is the slot lock itself this releases the slot lock, otherwise
lk; releasing a lock not held is a fatal error; then pop_off. -/
def releaseLk (s : SleepSt) : Except String SleepSt :=
  if s.lkIsSelf then
    if ¬ s.holdingSelf then .error "release"
    else popOff { s with holdingSelf := false }
  else
    if ¬ s.lkHeld then .error "release"
    else popOff { s with lkHeld := false }

/-- Modelled from the spec: release of the slot lock at the end of
sleep. -/
def releaseSelf (s : SleepSt) : Except String SleepSt :=
  if ¬ s.holdingSelf then .error "release"
  else popOff { s with holdingSelf := false }

/-- Modelled from the spec: re-acquire of lk at the end of sleep. -/
def acquireLk (s : SleepSt) : Except String SleepSt :=
  if s.lkIsSelf then acquireSelf s
  else if s.lkHeld then .error "acquire"
  else .ok { pushOff s with lkHeld := true }

/-- The sched call inside sleep: the four panic checks of sched
applied to the current state. -/
def schedFrom (s : SleepSt) : Except String Unit :=
  sched { holdingSelf := s.holdingSelf, noff := s.noff,
          state := s.state, intrOn := s.intrOn }

/-- sleep of proc.c, lines 498 to 514, up to the suspension inside
sched: acquire the slot lock unconditionally (line 508), release lk
(line 509), record the channel and set SLEEPING (lines 511, 512), and
pass the panic checks of sched (line 514).  Returns the state at the
moment of suspension. -/
def sleepEnter (chan : Nat) (s0 : SleepSt) : Except String SleepSt := do
  let s1 ← acquireSelf s0
  let s2 ← releaseLk s1
  let s3 := { s2 with chan := chan, state := PState.SLEEPING }
  let _ ← schedFrom s3
  pure s3

/-- sleep of proc.c, lines 516 to 521, after resumption: clear the
channel, release the slot lock, re-acquire lk. -/
def sleepResume (s : SleepSt) : Except String SleepSt := do
  let s2 ← releaseSelf { s with chan := 0 }
  acquireLk s2

/-- A whole sleep call in a run where the process is woken immediately
and the environment changes nothing: enough to settle whether any
panic branch is reached. -/
def sleepModel (chan : Nat) (s0 : SleepSt) : Except String SleepSt := do
  let s1 ← sleepEnter chan s0
  sleepResume s1

/-- The scan of the process table inside wait, proc.c lines 374 to
394: walk the slots in order keeping the running index; record whether
any slot has the caller as parent (havekids); stop at the first such
slot that is ZOMBIE, returning its index and contents. -/
def waitScan (self : Nat) : List Slot → Nat → Bool × Option (Nat × Slot)
  | [], _ => (false, none)
  | p :: rest, j =>
    if p.parent = some self then
      if p.state = .ZOMBIE then (true, some (j, p))
      else (true, (waitScan self rest (j + 1)).2)
    else waitScan self rest (j + 1)

/-- Result of a wait call: the returned value, the table, and the
xstate value delivered to the user status address (none when the
address is zero or the copyout failed), or a suspension with no
further environment state. -/
inductive WaitRes where
  | ret (r : Int) (table : List Slot) (copied : Option Int)
  | blocked (table : List Slot)
deriving DecidableEq, Repr

/-- Returned value of a wait call, none when still blocked. -/
def WaitRes.retVal : WaitRes → Option Int
  | .ret r _ _ => some r
  | .blocked _ => none

/-- wait of proc.c, lines 365 to 403.  addrNz states whether the user
passed a nonzero status address, copyOk whether the copyout of xstate
succeeds; envs gives the process table observed after each sleep on
the wait channel (empty: still blocked).  The scan reaps the first
ZOMBIE child: its pid is captured, xstate copied out when addrNz (on
copyout failure both locks are released and -1 returned with the slot
not freed), the slot freed through freeproc.  With no zombie child,
return -1 when there are no children at all or the caller is killed,
else sleep and rescan. -/
def wait (addrNz copyOk : Bool) (self : Nat)
    (envs : List (List Slot)) (table : List Slot) : WaitRes :=
  ((waitScan self table 0).2).elim
    (if ¬ (waitScan self table 0).1 ∨ (table.getD self dfltSlot).killed then
       .ret (-1) table none
     else
       match envs with
       | [] => .blocked table
       | t :: rest => wait addrNz copyOk self rest t)
    (fun jp =>
      if addrNz ∧ ¬ copyOk then .ret (-1) table none
      else .ret (jp.2.pid : Int) (table.set jp.1 (freeproc jp.2).1)
             (if addrNz then some jp.2.xstate else none))

/-- C8: for every slot p (the slot lock being a pure concurrency
precondition), freeproc gives back the trapframe page and the user
page table paired with the user-memory size sz up to which it is
freed, zeroes sz, pid, parent, name, chan, killed and xstate, and sets
state UNUSED. -/
theorem freeproc_spec (p : Slot) :
    (freeproc p).1.state = .UNUSED ∧
    (freeproc p).1.sz = 0 ∧
    (freeproc p).1.pid = 0 ∧
    (freeproc p).1.parent = none ∧
    (freeproc p).1.name = "" ∧
    (freeproc p).1.chan = 0 ∧
    (freeproc p).1.killed = false ∧
    (freeproc p).1.xstate = 0 ∧
    (freeproc p).1.trapframe = none ∧
    (freeproc p).1.pagetable = none ∧
    (freeproc p).2.tf = p.trapframe ∧
    (freeproc p).2.pt = p.pagetable.map (fun pt => (pt, p.sz)) :=
  ⟨rfl, rfl, rfl, rfl, rfl, rfl, rfl, rfl, rfl, rfl, rfl, rfl⟩

theorem pidCounter_eq (k : Nat) : pidCounter k = nextpidStart + k := by
  induction k with
  | zero => rfl
  | succ k ih => simp only [pidCounter, allocpid, ih]; omega

/-- C9: allocpid returns the current counter and increments it, so
over any sequence of calls the pids returned are strictly increasing
and never equal across distinct calls. -/
theorem allocpid_strict_mono :
    (∀ s, allocpid s = (s, s + 1)) ∧
    (∀ j k, j < k → nthPid j < nthPid k) ∧
    (∀ j k, j ≠ k → nthPid j ≠ nthPid k) := by
  refine ⟨fun s => rfl, ?_, ?_⟩
  · intro j k h
    simp only [nthPid, allocpid, pidCounter_eq]
    omega
  · intro j k h
    simp only [nthPid, allocpid, pidCounter_eq]
    omega

/-- Witness for C9: the first and the third allocpid calls return
distinct, increasing pids. -/
theorem allocpid_strict_mono_witness :
    nthPid 0 < nthPid 2 ∧ nthPid 0 ≠ nthPid 2 :=
  ⟨allocpid_strict_mono.2.1 0 2 (by decide),
   allocpid_strict_mono.2.2 0 2 (by decide)⟩

/-- C7: sched panics exactly when one of its stated preconditions is
violated: it proceeds to the context switch exactly when the caller
holds its own slot lock, the nesting count noff is 1, the caller state
is no longer RUNNING, and interrupts are disabled. -/
theorem sched_ok_iff (c : SchedCtx) :
    sched c = .ok () ↔
      (c.holdingSelf = true ∧ c.noff = 1 ∧ c.state ≠ .RUNNING ∧
       c.intrOn = false) := by
  unfold sched
  by_cases h1 : c.holdingSelf <;> by_cases h2 : c.noff = 1 <;>
    by_cases h3 : c.state = .RUNNING <;> by_cases h4 : c.intrOn <;>
    simp [h1, h2, h3, h4]

theorem kill_not_found : ∀ (table : List Slot) (pid : Nat),
    (∀ p ∈ table, p.pid ≠ pid) → kill table pid = (-1, table) := by
  intro table
  induction table with
  | nil => intro pid h; rfl
  | cons p rest ih =>
    intro pid h
    rw [kill]
    have hp : ¬ p.pid = pid := h p (by simp)
    rw [if_neg hp, ih pid (fun q hq => h q (by simp [hq]))]

theorem kill_zero_iff : ∀ (table : List Slot) (pid : Nat),
    (kill table pid).1 = 0 ↔ ∃ p ∈ table, p.pid = pid := by
  intro table
  induction table with
  | nil => intro pid; simp [kill]
  | cons p rest ih =>
    intro pid
    rw [kill]
    by_cases hp : p.pid = pid
    · simp [hp]
    · simp only [hp, if_neg, not_false_eq_true]
      simp only [List.mem_cons]
      constructor
      · intro h
        obtain ⟨q, hq, hq2⟩ := (ih pid).1 h
        exact ⟨q, Or.inr hq, hq2⟩
      · rintro ⟨q, hq | hq, hq2⟩
        · exact absurd (hq ▸ hq2) hp
        · exact (ih pid).2 ⟨q, hq, hq2⟩

theorem kill_found : ∀ (table : List Slot) (pid : Nat) (j : Nat) (p : Slot),
    table.get? j = some p → p.pid = pid →
    (∀ j2 p2, j2 < j → table.get? j2 = some p2 → p2.pid ≠ pid) →
    kill table pid = (0, table.set j
      { p with killed := true,
               state := if p.state = .SLEEPING then .RUNNABLE
                        else p.state }) := by
  intro table
  induction table with
  | nil => intro pid j p h; simp [List.get?] at h
  | cons q rest ih =>
    intro pid j p hget hpid hbefore
    cases j with
    | zero =>
      simp only [List.get?] at hget
      cases hget
      rw [kill, if_pos hpid]
      rfl
    | succ j =>
      simp only [List.get?] at hget
      have hq : ¬ q.pid = pid :=
        hbefore 0 q (by omega) rfl
      rw [kill, if_neg hq,
        ih pid j p hget hpid
          (fun j2 p2 h2 hg => hbefore (j2 + 1) p2 (by omega) (by simpa using hg))]
      rfl

/-- C6: kill returns 0 exactly when some slot holds the pid and -1
otherwise (the table then unchanged); on the first matching slot it
sets killed and moves the state from SLEEPING to RUNNABLE, leaving
every other field of the victim, and every other slot, unchanged. -/
theorem kill_spec (table : List Slot) (pid : Nat) :
    ((kill table pid).1 = 0 ↔ ∃ p ∈ table, p.pid = pid) ∧
    ((¬ ∃ p ∈ table, p.pid = pid) → kill table pid = (-1, table)) ∧
    (∀ j p, table.get? j = some p → p.pid = pid →
      (∀ j2 p2, j2 < j → table.get? j2 = some p2 → p2.pid ≠ pid) →
      kill table pid = (0, table.set j
        { p with killed := true,
                 state := if p.state = .SLEEPING then .RUNNABLE
                          else p.state })) := by
  refine ⟨kill_zero_iff table pid, ?_, ?_⟩
  · intro h
    exact kill_not_found table pid (by simpa using h)
  · intro j p h1 h2 h3
    exact kill_found table pid j p h1 h2 h3

/-- Concrete two-slot table for the kill witness. -/
def killTable : List Slot :=
  [{ dfltSlot with pid := 3, state := PState.SLEEPING },
   { dfltSlot with pid := 4 }]

/-- Witness for C6: killing pid 3 in a concrete table marks the first
slot killed and RUNNABLE and leaves the rest alone. -/
theorem kill_spec_witness :
    kill killTable 3 = (0, killTable.set 0
      { dfltSlot with pid := 3, state := PState.RUNNABLE, killed := true }) := by
  have h := (kill_spec killTable 3).2.2 0
    { dfltSlot with pid := 3, state := PState.SLEEPING } rfl rfl
    (by intro j2 p2 h2 hg; exact absurd h2 (by omega))
  simpa using h

/-- Concrete state of a process that holds its own slot lock and
passes that same lock to sleep: the identity case of C1. -/
def selfLockSt : SleepSt :=
  { holdingSelf := true, lkHeld := true, lkIsSelf := true, noff := 1,
    intrOn := false, intena := false, state := PState.RUNNING, chan := 0 }

/-- Counterexample to C1: when lk is the slot lock itself, the
unconditional acquire at the head of sleep (proc.c line 508) is an
acquire of a lock the caller already holds, which faults instead of
pairing with the release of lk as a no-op: sleep never reaches sched,
let alone pass its checks. -/
theorem sleep_identity_lock_panics :
    sleepModel 42 selfLockSt = .error "acquire" := rfl

/-- C1 amended: the code has no special case for lk being the slot
lock: when it is, and the caller holds it, the unconditional acquire
of the already-held slot lock faults, so sleep must only be called
with a distinct lock lk.  In that intended case, with lk held, noff
= 1 and interrupts off, sleep does block atomically: it reaches the
suspension holding only the slot lock with noff = 1 and state
SLEEPING on chan, every precondition of sched satisfied, and the
resume half also completes without reaching any panic branch. -/
theorem sleep_requires_distinct_lock (chan : Nat) (s : SleepSt)
    (h1 : s.lkIsSelf = false) (h2 : s.lkHeld = true)
    (h3 : s.holdingSelf = false) (h4 : s.noff = 1) (h5 : s.intrOn = false) :
    (∃ s2, sleepEnter chan s = .ok s2 ∧ s2.state = .SLEEPING ∧
      s2.chan = chan ∧ s2.holdingSelf = true ∧ s2.lkHeld = false ∧
      s2.noff = 1 ∧ s2.intrOn = false ∧ schedFrom s2 = .ok ()) ∧
    (∃ s3, sleepModel chan s = .ok s3) ∧
    (∀ t : SleepSt, t.lkIsSelf = true → t.holdingSelf = true →
      sleepModel chan t = .error "acquire") := by
  obtain ⟨b1, b2, b3, b4, b5, b6, b7, b8⟩ := s
  simp only at h1 h2 h3 h4 h5
  subst h1 h2 h3 h4 h5
  refine ⟨⟨_, rfl, rfl, rfl, rfl, rfl, rfl, rfl, rfl⟩, ⟨_, rfl⟩, ?_⟩
  intro t ht1 ht2
  obtain ⟨c1, c2, c3, c4, c5, c6, c7, c8⟩ := t
  simp only at ht1 ht2
  subst ht1 ht2
  rfl

/-- Concrete caller state for the sleep witness: holds only the
distinct lock lk, with nesting count 1 and interrupts off. -/
def distinctLockSt : SleepSt :=
  { holdingSelf := false, lkHeld := true, lkIsSelf := false, noff := 1,
    intrOn := false, intena := true, state := PState.RUNNING, chan := 0 }

/-- Witness for the amended C1: from a concrete state holding a
distinct lock, the whole sleep call completes without panic. -/
theorem sleep_requires_distinct_lock_witness :
    ∃ s3, sleepModel 42 distinctLockSt = .ok s3 :=
  (sleep_requires_distinct_lock 42 distinctLockSt rfl rfl rfl rfl rfl).2.1

theorem waitScan_no_zombie (self : Nat) :
    ∀ (table : List Slot) (c : Nat),
      (∀ p ∈ table, ¬(p.parent = some self ∧ p.state = .ZOMBIE)) →
      (waitScan self table c).2 = none ∧
      ((waitScan self table c).1 = true ↔
        ∃ p ∈ table, p.parent = some self) := by
  intro table
  induction table with
  | nil => intro c h; simp [waitScan]
  | cons q rest ih =>
    intro c h
    rw [waitScan]
    obtain ⟨ih1, ih2⟩ := ih (c + 1) (fun p hp => h p (by simp [hp]))
    by_cases hq : q.parent = some self
    · have hz : ¬ q.state = .ZOMBIE := fun hz => h q (by simp) ⟨hq, hz⟩
      rw [if_pos hq, if_neg hz]
      exact ⟨ih1, by simp [hq]⟩
    · rw [if_neg hq]
      refine ⟨ih1, ?_⟩
      rw [ih2]
      simp [hq]

theorem waitScan_first_zombie (self : Nat) :
    ∀ (table : List Slot) (c j : Nat) (p : Slot),
      table.get? j = some p → p.parent = some self → p.state = .ZOMBIE →
      (∀ j2 p2, j2 < j → table.get? j2 = some p2 →
        ¬(p2.parent = some self ∧ p2.state = .ZOMBIE)) →
      waitScan self table c = (true, some (c + j, p)) := by
  intro table
  induction table with
  | nil => intro c j p h; simp [List.get?] at h
  | cons q rest ih =>
    intro c j p hget hpar hz hbefore
    cases j with
    | zero =>
      simp only [List.get?] at hget
      cases hget
      rw [waitScan, if_pos hpar, if_pos hz]
      simp
    | succ j =>
      simp only [List.get?] at hget
      have hq := hbefore 0 q (by omega) rfl
      have harith : c + 1 + j = c + (j + 1) := by omega
      by_cases hqp : q.parent = some self
      · have hqz : ¬ q.state = .ZOMBIE := fun h2 => hq ⟨hqp, h2⟩
        rw [waitScan, if_pos hqp, if_neg hqz,
          ih (c + 1) j p hget hpar hz
            (fun j2 p2 h2 hg =>
              hbefore (j2 + 1) p2 (by omega) (by simpa using hg)),
          harith]
      · rw [waitScan, if_neg hqp,
          ih (c + 1) j p hget hpar hz
            (fun j2 p2 h2 hg =>
              hbefore (j2 + 1) p2 (by omega) (by simpa using hg)),
          harith]

/-- C5 amended: wait returns -1 when the caller has no children at
all, or when it is killed and no child is currently ZOMBIE (a ZOMBIE
child is reaped even for a killed caller); when the first ZOMBIE child
in slot order is at index j, wait copies that child xstate to the user
address when it is nonzero (on copyout failure it releases both locks
and returns -1 with the slot not freed), frees the slot through
freeproc, and returns the child pid. -/
theorem wait_spec (addrNz copyOk : Bool) (self : Nat)
    (envs : List (List Slot)) (table : List Slot) :
    ((¬ ∃ p ∈ table, p.parent = some self) →
      wait addrNz copyOk self envs table = .ret (-1) table none) ∧
    ((table.getD self dfltSlot).killed = true →
      (∀ p ∈ table, ¬(p.parent = some self ∧ p.state = .ZOMBIE)) →
      wait addrNz copyOk self envs table = .ret (-1) table none) ∧
    (∀ j p, table.get? j = some p → p.parent = some self →
      p.state = .ZOMBIE →
      (∀ j2 p2, j2 < j → table.get? j2 = some p2 →
        ¬(p2.parent = some self ∧ p2.state = .ZOMBIE)) →
      ((addrNz = true ∧ copyOk = false →
        wait addrNz copyOk self envs table = .ret (-1) table none) ∧
       (¬(addrNz = true ∧ copyOk = false) →
        wait addrNz copyOk self envs table =
          .ret (p.pid : Int) (table.set j (freeproc p).1)
            (if addrNz then some p.xstate else none)))) := by
  refine ⟨?_, ?_, ?_⟩
  · intro h
    have hnz : ∀ p ∈ table, ¬(p.parent = some self ∧ p.state = .ZOMBIE) :=
      fun p hp hpz => h ⟨p, hp, hpz.1⟩
    obtain ⟨w1, w2⟩ := waitScan_no_zombie self table 0 hnz
    have hb : (waitScan self table 0).1 = false := by
      cases hbv : (waitScan self table 0).1 with
      | false => rfl
      | true => exact absurd (w2.1 hbv) h
    rw [wait.eq_def, w1, hb]
    simp only [Option.elim]
    rw [if_pos (Or.inl (by simp))]
  · intro hk hnz
    obtain ⟨w1, w2⟩ := waitScan_no_zombie self table 0 hnz
    rw [wait.eq_def, w1]
    simp only [Option.elim]
    rw [if_pos (Or.inr hk)]
  · intro j p hget hpar hz hbefore
    have hscan := waitScan_first_zombie self table 0 j p hget hpar hz hbefore
    rw [Nat.zero_add] at hscan
    have hscan2 : (waitScan self table 0).2 = some (j, p) := by rw [hscan]
    constructor
    · rintro ⟨ha, hc⟩
      rw [wait.eq_def, hscan2]
      simp only [Option.elim]
      rw [if_pos ⟨ha, by simp [hc]⟩]
    · intro hnc
      have hcond : ¬(addrNz = true ∧ ¬ copyOk = true) := by
        rcases addrNz with _ | _ <;> rcases copyOk with _ | _ <;>
          simp_all
      rw [wait.eq_def, hscan2]
      simp only [Option.elim]
      rw [if_neg hcond]

/-- Concrete table for C5: slot 0 is the killed caller, slot 1 a
ZOMBIE child with pid 5 and exit status 7. -/
def waitKilledTable : List Slot :=
  [{ dfltSlot with state := PState.RUNNING, pid := 1, killed := true },
   { dfltSlot with state := PState.ZOMBIE, pid := 5, parent := some 0,
                   xstate := 7 }]

/-- Counterexample to C5 as stated: a killed caller with a ZOMBIE
child does not get -1; wait reaps the child and returns its pid 5. -/
theorem wait_killed_counterexample :
    (waitKilledTable.getD 0 dfltSlot).killed = true ∧
    (wait true true 0 [] waitKilledTable).retVal = some 5 ∧
    ((5 : Int) ≠ -1) := by decide

/-- Witness for the amended C5: in the concrete table above, wait
reaps the zombie child: pid 5 is returned, xstate 7 delivered, and
the slot freed. -/
theorem wait_spec_witness :
    wait true true 0 [] waitKilledTable =
      .ret 5 (waitKilledTable.set 1
        (freeproc { dfltSlot with state := PState.ZOMBIE, pid := 5,
                                  parent := some 0, xstate := 7 }).1)
        (some 7) := by
  have h := ((wait_spec true true 0 [] waitKilledTable).2.2 1
    { dfltSlot with state := PState.ZOMBIE, pid := 5, parent := some 0,
                    xstate := 7 }
    rfl rfl rfl
    (by intro j2 p2 h2 hg
        have hj : j2 = 0 := by omega
        subst hj
        simp only [waitKilledTable, List.get?] at hg
        cases hg
        decide)).2 (by simp)
  simpa using h

end XV6
